import Mathlib

/-!
Shallow embedding of the wreq-js native bridge (src/rust/src/client.rs,
src/rust/src/lib.rs, src/rust/src/websocket.rs) and proofs about its
body-stream store, response materialisation, method normalisation,
session registry, WebSocket header casing and close dispatch, and the
request-cancellation protocol.

Machine bytes are modelled as `Nat`, byte buffers (`bytes::Bytes`) as
`List Nat`, and the handle-addressed `DashMap` registries as association
lists whose update/removal operations act on every entry with the given
key (keys are unique in the real store, where handles come from a
monotonic counter, so the two coincide).
-/

namespace WreqJs

/-- A byte buffer (`bytes::Bytes` / `Vec<u8>` in the source). -/
abbrev Bytes := List Nat

/-- Error kinds surfaced by the native bridge (`anyhow` errors in the source,
distinguished here by their message shapes). -/
inductive BridgeError where
  | bodyHandleNotFound (handle : Nat)
  | streamError (msg : String)
  | badMethod (method : String)
  deriving Repr, DecidableEq

/-- A response body stream (`ResponseBodyStream`): the sequence of chunk
results the underlying stream will yield, each a chunk or a transport
error. -/
abbrev WStream := List (Except String Bytes)

/-- The process-wide body stream store: `BODY_STREAMS` (a map from handle to
stream) together with the `NEXT_BODY_HANDLE` counter. -/
structure BodyStore where
  streams : List (Nat × WStream)
  nextHandle : Nat

/-- Map lookup on `BODY_STREAMS` (`DashMap::get`). -/
def BodyStore.lookup (st : BodyStore) (h : Nat) : Option WStream :=
  (st.streams.find? (fun p => p.1 == h)).map Prod.snd

/-- Map removal on `BODY_STREAMS` (`DashMap::remove`). -/
def BodyStore.remove (st : BodyStore) (h : Nat) : BodyStore :=
  ⟨st.streams.filter (fun p => p.1 != h), st.nextHandle⟩

/-- Replacing the stream stored under a handle (the in-place mutation a
successful chunk read performs behind the handle's mutex). -/
def BodyStore.update (st : BodyStore) (h : Nat) (s : WStream) : BodyStore :=
  ⟨st.streams.map (fun p => if p.1 == h then (p.1, s) else p), st.nextHandle⟩

/-- `store_body_stream`: allocate the next handle from the counter and insert
the stream under it. -/
def store_body_stream (st : BodyStore) (s : WStream) : Nat × BodyStore :=
  (st.nextHandle, ⟨st.streams ++ [(st.nextHandle, s)], st.nextHandle + 1⟩)

/-- `read_body_chunk` (client.rs): look the handle up (error when absent),
await one chunk; a chunk keeps the handle (with the advanced stream), a
terminal success or an error removes it. -/
def read_body_chunk (st : BodyStore) (h : Nat) :
    Except BridgeError (Option Bytes) × BodyStore :=
  match st.lookup h with
  | none => (.error (.bodyHandleNotFound h), st)
  | some stream =>
    match stream with
    | [] => (.ok none, st.remove h)
    | .ok bytes :: rest => (.ok (some bytes), st.update h rest)
    | .error e :: _ => (.error (.streamError e), st.remove h)

/-- The chunk-collection loop of `read_body_all`: drain every chunk into a
list, stopping with the first stream error. -/
def collectChunks : WStream → Except String (List Bytes)
  | [] => .ok []
  | .ok bytes :: rest => (collectChunks rest).map (fun tail => bytes :: tail)
  | .error e :: _ => .error e

/-- The consolidation step of `read_body_all`: fast paths for zero and one
chunks, otherwise concatenate into one pre-sized buffer. -/
def consolidateChunks (chunks : List Bytes) : Bytes :=
  if chunks.isEmpty then []
  else if chunks.length == 1 then chunks.headD []
  else chunks.foldl (fun buf c => buf ++ c) []

/-- `read_body_all` (client.rs): atomically remove the handle from the store
(erroring when absent), then drain all chunks and consolidate them. -/
def read_body_all (st : BodyStore) (h : Nat) : Except BridgeError Bytes × BodyStore :=
  match st.lookup h with
  | none => (.error (.bodyHandleNotFound h), st)
  | some stream =>
    let st' := st.remove h
    match collectChunks stream with
    | .error e => (.error (.streamError e), st')
    | .ok chunks => (.ok (consolidateChunks chunks), st')

/-- `drop_body_stream` (client.rs): remove the handle, ignoring whether it was
present; total, never an error. -/
def drop_body_stream (st : BodyStore) (h : Nat) : BodyStore :=
  st.remove h

/-- Whether a byte may occur in an HTTP method token. Models the character
table behind `Method::from_bytes` in the `http` crate (the token characters
of RFC 7230: letters, digits, and the listed punctuation); this check is
the only part of method parsing living outside the repository. -/
def isMethodByte (n : Nat) : Bool :=
  n == 0x21 || n == 0x23 || n == 0x24 || n == 0x25 || n == 0x26 || n == 0x27 ||
  n == 0x2A || n == 0x2B || n == 0x2D || n == 0x2E ||
  (decide (0x30 ≤ n) && decide (n ≤ 0x39)) ||
  (decide (0x41 ≤ n) && decide (n ≤ 0x5A)) ||
  n == 0x5E || n == 0x5F || n == 0x60 ||
  (decide (0x61 ≤ n) && decide (n ≤ 0x7A)) ||
  n == 0x7C || n == 0x7E

/-- Success condition of `Method::from_bytes`: a non-empty string of method
token characters. -/
def isValidMethodToken (m : String) : Bool :=
  !(m == "") && m.toList.all (fun c => isMethodByte c.toNat)

/-- The nine method tokens `make_request_inner` recognises directly. -/
def httpKnownMethods : List String :=
  ["GET", "POST", "PUT", "DELETE", "PATCH", "HEAD", "OPTIONS", "CONNECT", "TRACE"]

/-- Method normalisation in `make_request_inner` (client.rs): empty defaults
to GET; the nine known tokens map to the corresponding `Method` constant
(whose canonical name is the token itself); any other string goes through
`Method::from_bytes`, failing with the bad-method (`Unsupported HTTP
method`) error when syntactically invalid. -/
def normalize_method (method : String) : Except BridgeError String :=
  let m := if method == "" then "GET" else method
  if httpKnownMethods.contains m then .ok m
  else if isValidMethodToken m then .ok m
  else .error (.badMethod m)

/-- ASCII lower-casing of a string (Rust's `to_ascii_lowercase`;
`Char.toLower` lower-cases exactly the letters A–Z). -/
def strLower (s : String) : String :=
  String.mk (s.data.map Char.toLower)

/-- Rust's `str::eq_ignore_ascii_case`: equality after ASCII case folding. -/
def eqIgnoreAsciiCase (a b : String) : Bool :=
  strLower a == strLower b

/-- `response_allows_body` (client.rs): no body for a HEAD request (compared
ignoring ASCII case) or for a 101, 204, 205 or 304 status. -/
def response_allows_body (status : Nat) (method : String) : Bool :=
  if eqIgnoreAsciiCase method "HEAD" then false
  else if status == 101 || status == 204 || status == 205 || status == 304 then false
  else true

/-- `INLINE_BODY_MAX` (client.rs): 64 KiB. -/
def INLINE_BODY_MAX : Nat := 64 * 1024

/-- `response.bytes()`: drain the whole stream into one buffer, failing with
the first stream error. -/
def drainAll : WStream → Except String Bytes
  | [] => .ok []
  | .ok bytes :: rest => (drainAll rest).map (fun tail => bytes ++ tail)
  | .error e :: _ => .error e

/-- The body-related fields of a materialised `Response`. -/
structure BodyOutcome where
  bodyHandle : Option Nat
  bodyBytes : Option Bytes
  contentLength : Option Nat
  deriving Repr, DecidableEq

/-- The body materialisation tail of `make_request_inner` (client.rs): when
the method/status allows a body, a known content length of at most
`INLINE_BODY_MAX` is drained inline (overwriting the content length with
the observed byte count), anything else is registered in the body stream
store; otherwise no body at all is attached. -/
def materialise_body (st : BodyStore) (status : Nat) (method : String)
    (contentLength : Option Nat) (bodyStream : WStream) :
    Except BridgeError BodyOutcome × BodyStore :=
  if response_allows_body status method then
    let inlineEligible := (contentLength.map (fun len => decide (len ≤ INLINE_BODY_MAX))).getD false
    if inlineEligible then
      match drainAll bodyStream with
      | .error e => (.error (.streamError e), st)
      | .ok bytes => (.ok ⟨none, some bytes, some bytes.length⟩, st)
    else
      let hs := store_body_stream st bodyStream
      (.ok ⟨some hs.1, none, contentLength⟩, hs.2)
  else
    (.ok ⟨none, none, contentLength⟩, st)

/-- `HeaderValue::to_str` acceptance (the `http` crate's visible-ASCII test):
bytes 32–126 plus horizontal tab. -/
def is_visible_ascii (b : Nat) : Bool :=
  (decide (32 ≤ b) && decide (b < 127)) || b == 9

/-- A header value converts to a string iff every byte passes the
visible-ASCII test. -/
def header_value_ok (v : List Nat) : Bool :=
  v.all is_visible_ascii

/-- The string a convertible header value yields. -/
def header_value_str (v : List Nat) : String :=
  String.mk (v.map Char.ofNat)

/-- The response-header extraction loop of `make_request_inner` (client.rs):
push each server pair whose value converts with `to_str`, silently skipping
the rest. -/
def extract_response_headers (raw : List (String × List Nat)) : List (String × String) :=
  raw.foldl
    (fun acc kv =>
      if header_value_ok kv.2 then acc ++ [(kv.1, header_value_str kv.2)] else acc)
    []

/-- Keyed insertion into one of the registries: replace the value of an
existing entry in place, else append a new entry. -/
def registryInsert {α : Type} (entries : List (String × α)) (key : String) (v : α) :
    List (String × α) :=
  if entries.any (fun p => p.1 == key) then
    entries.map (fun p => if p.1 == key then (p.1, v) else p)
  else entries ++ [(key, v)]

/-- A cookie jar, reduced to its observable content. -/
abbrev CookieJar := List (String × String)

/-- The session registry behind `SessionManager` (client.rs): named cookie
jars. -/
structure SessionRegistry where
  sessions : List (String × CookieJar)

/-- Registry lookup by session id. -/
def SessionRegistry.lookup (reg : SessionRegistry) (sid : String) : Option CookieJar :=
  (reg.sessions.find? (fun p => p.1 == sid)).map Prod.snd

/-- `SessionManager::create_session` (client.rs): insert a fresh jar under the
given id — whatever it is — and return that id. -/
def sessionManager_create_session (reg : SessionRegistry) (session_id : String) :
    SessionRegistry × String :=
  (⟨registryInsert reg.sessions session_id []⟩, session_id)

/-- The native `create_session` binding (lib.rs): `freshUuid` stands for the
v4 UUID `generate_session_id` would produce; it is used only when no
`sessionId` string was supplied at all (`sessionIdOpt = none`) — a supplied
string, even the empty one, is passed through verbatim. -/
def create_session (freshUuid : String) (sessionIdOpt : Option String)
    (reg : SessionRegistry) : SessionRegistry × String :=
  let session_id := sessionIdOpt.getD freshUuid
  sessionManager_create_session reg session_id

/-- The fixed ordered list of standard header names `build_ws_orig_headers`
(websocket.rs) inserts in Title-Case before the user headers. -/
def wsStandardHeaders : List String :=
  ["Host", "Connection", "Pragma", "Cache-Control", "User-Agent", "Upgrade", "Origin",
   "Sec-WebSocket-Version", "Accept-Encoding", "Accept-Language", "Accept", "Cookie",
   "Sec-WebSocket-Key", "Sec-WebSocket-Extensions", "Sec-WebSocket-Protocol",
   "Sec-Fetch-Dest", "Sec-Fetch-Mode", "Sec-Fetch-Site", "Sec-Fetch-User"]

/-- `OrigHeaderMap::insert` (wreq, external to the repository): the map keys
an originally-cased name under its ASCII-lowercase form; inserting a name
whose lowercase key is already present replaces the stored casing in
place, otherwise the name is appended. -/
def origInsert (m : List (String × String)) (name : String) : List (String × String) :=
  registryInsert m (strLower name) name

/-- `build_ws_orig_headers` (websocket.rs): insert the nineteen standard names
in order, then every user-supplied header name in its original casing. -/
def build_ws_orig_headers (userHeaders : List (String × String)) : List (String × String) :=
  let orig := wsStandardHeaders.foldl origInsert []
  userHeaders.foldl (fun m kv => origInsert m kv.1) orig

/-- The header-name sequence the specification claims for the upgrade map:
the standard list in order (a matching user-supplied name overriding its
casing), followed by the user-supplied names that match no standard
entry. -/
def claimedOrigHeaderNames (userHeaders : List (String × String)) : List String :=
  wsStandardHeaders.map (fun std =>
    match userHeaders.find? (fun kv => strLower kv.1 == strLower std) with
    | some kv => kv.1
    | none => std) ++
  (userHeaders.map Prod.fst).filter
    (fun k => !(wsStandardHeaders.any (fun std => strLower std == strLower k)))

/-- Events travelling from the WebSocket reader task to the dispatcher
(`WsEvent` in lib.rs). -/
inductive WsEvent where
  | text (s : String)
  | binary (b : Bytes)
  | close
  | error (msg : String)
  deriving Repr, DecidableEq

/-- Frames (or receive errors) the WebSocket reader task observes. -/
inductive WsFrame where
  | text (s : String)
  | binary (b : Bytes)
  | close
  | pingPong
  | recvError (msg : String)
  deriving Repr, DecidableEq

/-- The reader task of `websocket_connect` (lib.rs): text and binary frames
are forwarded, ping and pong are ignored, a peer close frame forwards one
`close` and stops, a receive error forwards an `error` then a `close` and
stops; after the loop the task always sends one trailing `close` — so both
a peer close and the local loop exit produce a close event. -/
def readerEvents : List WsFrame → List WsEvent
  | [] => [.close]
  | .text s :: rest => .text s :: readerEvents rest
  | .binary b :: rest => .binary b :: readerEvents rest
  | .close :: _ => [.close, .close]
  | .pingPong :: rest => readerEvents rest
  | .recvError m :: _ => [.error m, .close, .close]

/-- The dispatcher task of `websocket_connect` (lib.rs), observed through
the number of `onClose` host-callback invocations: the `close_emitted`
latch suppresses every close event after the first, and after the channel
closes a final close fires only when the latch is still clear.
`hasOnClose` records whether the host supplied an `onClose` callback. -/
def closeInvocations (hasOnClose : Bool) : List WsEvent → Bool → Nat
  | [], closeEmitted => if !closeEmitted && hasOnClose then 1 else 0
  | .close :: rest, closeEmitted =>
      if closeEmitted then closeInvocations hasOnClose rest closeEmitted
      else (if hasOnClose then 1 else 0) + closeInvocations hasOnClose rest true
  | .text _ :: rest, closeEmitted => closeInvocations hasOnClose rest closeEmitted
  | .binary _ :: rest, closeEmitted => closeInvocations hasOnClose rest closeEmitted
  | .error _ :: rest, closeEmitted => closeInvocations hasOnClose rest closeEmitted

/-- How a cancellable request's promise settles. -/
inductive ReqOutcome where
  | completed
  | aborted
  deriving Repr, DecidableEq

/-- The observable state of one cancellable request (lib.rs `request` with
`cancellable = true`): whether its token is still in
`REQUEST_CANCELLATIONS`, whether the token has been cancelled, whether the
underlying `make_request` future has produced its result, and how the
promise settled (if it has). -/
structure ReqState where
  tokenInRegistry : Bool
  tokenCancelled : Bool
  sendReady : Bool
  settled : Option ReqOutcome
  deriving Repr, DecidableEq

/-- State right after `request` registered the token and spawned the task. -/
def initReqState : ReqState := ⟨true, false, false, none⟩

/-- Interleaved steps of the spawned request task and `cancel_request`
(lib.rs). `settleSend` and `settleCancel` are the two branches of the
`tokio::select!` race; either branch removes the token from the registry
before the promise settles. `cancelCall` is `cancel_request`: it cancels
the token only when it could still remove it from the registry. -/
inductive ReqStep : ReqState → ReqState → Prop where
  | sendCompletes (s : ReqState) :
      s.sendReady = false → s.settled = none →
      ReqStep s { s with sendReady := true }
  | settleSend (s : ReqState) :
      s.sendReady = true → s.settled = none →
      ReqStep s { s with tokenInRegistry := false, settled := some .completed }
  | settleCancel (s : ReqState) :
      s.tokenCancelled = true → s.settled = none →
      ReqStep s { s with tokenInRegistry := false, settled := some .aborted }
  | cancelCall (s : ReqState) :
      s.tokenInRegistry = true →
      ReqStep s { s with tokenInRegistry := false, tokenCancelled := true }

/-- States reachable from the freshly registered request. -/
inductive ReqReachable : ReqState → Prop where
  | init : ReqReachable initReqState
  | step {s t : ReqState} : ReqReachable s → ReqStep s t → ReqReachable t

/-! ## Store lemmas shared by several claims -/

theorem BodyStore.lookup_remove (st : BodyStore) (h : Nat) :
    (st.remove h).lookup h = none := by
  unfold BodyStore.lookup BodyStore.remove
  have hf : (st.streams.filter (fun p => p.1 != h)).find? (fun p => p.1 == h) = none := by
    rw [List.find?_eq_none]
    intro p hp
    have hne := List.of_mem_filter hp
    simp only [bne_iff_ne, ne_eq] at hne
    simp [hne]
  rw [hf]
  rfl

theorem BodyStore.remove_absent (st : BodyStore) (h : Nat) (habs : st.lookup h = none) :
    st.remove h = st := by
  have hf : st.streams.find? (fun p => p.1 == h) = none := by
    unfold BodyStore.lookup at habs
    cases hfind : st.streams.find? (fun p => p.1 == h) with
    | none => rfl
    | some v => rw [hfind] at habs; simp at habs
  cases st with
  | mk streams nextHandle =>
    unfold BodyStore.remove
    simp only [BodyStore.mk.injEq, and_true]
    rw [List.filter_eq_self]
    intro a ha
    have := List.find?_eq_none.mp hf a ha
    simpa using this

/-- C3: once `read_all(h)` has run — whatever its result — the handle is gone
from the store (it is removed before draining, so the final store is exactly
the original minus `h`), and any later `read_chunk(h)` or `read_all(h)`
fails with the body-handle-not-found error. -/
theorem read_all_invalidates_handle (st : BodyStore) (h : Nat)
    (hmem : (st.lookup h).isSome = true) :
    (read_body_all st h).2 = st.remove h ∧
    ((read_body_all st h).2).lookup h = none ∧
    (read_body_chunk (read_body_all st h).2 h).1 = .error (.bodyHandleNotFound h) ∧
    (read_body_all (read_body_all st h).2 h).1 = .error (.bodyHandleNotFound h) := by
  obtain ⟨stream, hs⟩ := Option.isSome_iff_exists.mp hmem
  have hst2 : (read_body_all st h).2 = st.remove h := by
    unfold read_body_all
    rw [hs]
    cases hc : collectChunks stream <;> simp [hc]
  have hlook : (st.remove h).lookup h = none := BodyStore.lookup_remove st h
  refine ⟨hst2, ?_, ?_, ?_⟩
  · rw [hst2]; exact hlook
  · rw [hst2]; unfold read_body_chunk; rw [hlook]
  · rw [hst2]; unfold read_body_all; rw [hlook]

/-- Witness for C3 at a one-entry store. -/
theorem read_all_invalidates_handle_witness :
    (read_body_all (BodyStore.mk [(1, [Except.ok ([7, 8] : Bytes)])] 2) 1).2 =
      (BodyStore.mk [(1, [Except.ok ([7, 8] : Bytes)])] 2).remove 1 ∧
    ((read_body_all (BodyStore.mk [(1, [Except.ok ([7, 8] : Bytes)])] 2) 1).2).lookup 1 = none ∧
    (read_body_chunk (read_body_all (BodyStore.mk [(1, [Except.ok ([7, 8] : Bytes)])] 2) 1).2 1).1 =
      .error (.bodyHandleNotFound 1) ∧
    (read_body_all (read_body_all (BodyStore.mk [(1, [Except.ok ([7, 8] : Bytes)])] 2) 1).2 1).1 =
      .error (.bodyHandleNotFound 1) :=
  read_all_invalidates_handle (BodyStore.mk [(1, [Except.ok ([7, 8] : Bytes)])] 2) 1 (by rfl)

/-- C10: `cancelBody` (`drop_body_stream`) is a total store update — it
removes a present handle and leaves the store unchanged for an absent one —
whereas `readBodyChunk` and `readBodyAll` fail with the
body-handle-not-found error on an absent handle. -/
theorem cancel_body_total_vs_read_errors (st : BodyStore) (h : Nat) :
    (drop_body_stream st h).lookup h = none ∧
    (st.lookup h = none → drop_body_stream st h = st) ∧
    (st.lookup h = none →
      (read_body_chunk st h).1 = .error (.bodyHandleNotFound h) ∧
      (read_body_all st h).1 = .error (.bodyHandleNotFound h)) := by
  refine ⟨BodyStore.lookup_remove st h, fun habs => BodyStore.remove_absent st h habs,
    fun habs => ⟨?_, ?_⟩⟩
  · unfold read_body_chunk; rw [habs]
  · unfold read_body_all; rw [habs]

/-- Witness for C10 at an empty store. -/
theorem cancel_body_total_vs_read_errors_witness :
    drop_body_stream (BodyStore.mk [] 5) 3 = BodyStore.mk [] 5 ∧
    (read_body_chunk (BodyStore.mk [] 5) 3).1 = .error (.bodyHandleNotFound 3) :=
  ⟨(cancel_body_total_vs_read_errors (BodyStore.mk [] 5) 3).2.1 rfl,
   ((cancel_body_total_vs_read_errors (BodyStore.mk [] 5) 3).2.2 rfl).1⟩

/-! ## Response header extraction (C9) -/

theorem extract_headers_go (raw : List (String × List Nat)) (acc : List (String × String)) :
    raw.foldl
      (fun acc kv =>
        if header_value_ok kv.2 then acc ++ [(kv.1, header_value_str kv.2)] else acc)
      acc =
    acc ++ (raw.filter (fun kv => header_value_ok kv.2)).map
      (fun kv => (kv.1, header_value_str kv.2)) := by
  induction raw generalizing acc with
  | nil => simp
  | cons kv raw ih =>
    by_cases hok : header_value_ok kv.2
    · simp [List.foldl_cons, hok, ih, List.filter_cons]
    · simp [List.foldl_cons, hok, ih, List.filter_cons]

/-- C9: the returned headers are exactly the server pairs whose value passes
`HeaderValue::to_str` (visible ASCII), converted, in server order; a failing
pair is silently dropped rather than erroring. -/
theorem response_headers_exact (raw : List (String × List Nat)) :
    extract_response_headers raw =
      (raw.filter (fun kv => header_value_ok kv.2)).map
        (fun kv => (kv.1, header_value_str kv.2)) := by
  unfold extract_response_headers
  rw [extract_headers_go]
  simp

/-! ## Session creation (C8) -/

theorem registryInsert_find {α : Type} (l : List (String × α)) (key : String) (v : α) :
    ((registryInsert l key v).find? (fun p => p.1 == key)).map Prod.snd = some v := by
  unfold registryInsert
  cases hany : l.any (fun p => p.1 == key) with
  | true =>
    simp only [if_pos]
    induction l with
    | nil => simp at hany
    | cons a l ih =>
      by_cases hk : a.1 = key
      · simp [List.map_cons, hk]
      · have htail : l.any (fun p => p.1 == key) = true := by
          simp only [List.any_cons] at hany
          simpa [hk] using hany
        have := ih htail
        simp only [List.map_cons] at *
        rw [if_neg (by simp [hk])]
        rw [List.find?_cons_of_neg _ (by simp [hk])]
        exact this
  | false =>
    simp only [hany, Bool.false_eq_true, if_false]
    rw [List.find?_append]
    have hf : l.find? (fun p => p.1 == key) = none := by
      rw [List.find?_eq_none]
      intro p hp hcontra
      have hktrue : l.any (fun p => p.1 == key) = true :=
        List.any_eq_true.mpr ⟨p, hp, hcontra⟩
      rw [hany] at hktrue
      exact Bool.false_ne_true hktrue
    rw [hf]
    simp

/-- Counterexample to C8 as stated: calling `createSession` with the supplied
string `sessionId = ""` registers the fresh jar under the empty string and
returns the empty string — the freshly generated UUID is not used. -/
theorem create_session_empty_id_counterexample :
    (create_session "3f2c8a1e-9b4d-4c6a-8e21-5a7d9c0b1234" (some "") ⟨[]⟩).2 = "" ∧
    (create_session "3f2c8a1e-9b4d-4c6a-8e21-5a7d9c0b1234" (some "") ⟨[]⟩).1.lookup "" =
      some ([] : CookieJar) ∧
    (create_session "3f2c8a1e-9b4d-4c6a-8e21-5a7d9c0b1234" (some "") ⟨[]⟩).1.lookup
      "3f2c8a1e-9b4d-4c6a-8e21-5a7d9c0b1234" = none :=
  ⟨rfl, rfl, rfl⟩

/-- C8 (amended): the native `createSession` substitutes the generated v4
UUID only when no `sessionId` string is supplied at all; any supplied
string — the empty or whitespace-only string included — is used verbatim as
the registry key of the fresh jar and returned to the caller. -/
theorem create_session_uses_supplied_id_verbatim (freshUuid : String)
    (sessionIdOpt : Option String) (reg : SessionRegistry) :
    (create_session freshUuid sessionIdOpt reg).2 = sessionIdOpt.getD freshUuid ∧
    (create_session freshUuid sessionIdOpt reg).1.lookup (sessionIdOpt.getD freshUuid) =
      some ([] : CookieJar) := by
  refine ⟨rfl, ?_⟩
  unfold create_session sessionManager_create_session SessionRegistry.lookup
  exact registryInsert_find reg.sessions (sessionIdOpt.getD freshUuid) []

/-! ## WebSocket close idempotence (C6) -/

theorem closeInvocations_emitted (hasOnClose : Bool) (events : List WsEvent) :
    closeInvocations hasOnClose events true = 0 := by
  induction events with
  | nil => simp [closeInvocations]
  | cons e rest ih => cases e <;> simp [closeInvocations, ih]

/-- C6: over any sequence of events reaching the dispatcher — in particular
the sequence the reader task produces from any frame sequence, where a peer
close frame or a receive error is followed by the loop-exit close — the
`close_emitted` latch lets the `onClose` host callback fire at most once. -/
theorem onclose_at_most_once (hasOnClose : Bool) (events : List WsEvent)
    (frames : List WsFrame) :
    closeInvocations hasOnClose events false ≤ 1 ∧
    closeInvocations hasOnClose (readerEvents frames) false ≤ 1 := by
  have key : ∀ evs : List WsEvent, closeInvocations hasOnClose evs false ≤ 1 := by
    intro evs
    induction evs with
    | nil => cases hasOnClose <;> simp [closeInvocations]
    | cons e rest ih =>
      cases e with
      | close =>
        have hstep : closeInvocations hasOnClose (WsEvent.close :: rest) false =
            (if hasOnClose then 1 else 0) + closeInvocations hasOnClose rest true := rfl
        rw [hstep, closeInvocations_emitted]
        cases hasOnClose <;> simp
      | text s => simpa [closeInvocations] using ih
      | binary b => simpa [closeInvocations] using ih
      | error m => simpa [closeInvocations] using ih
  exact ⟨key events, key (readerEvents frames)⟩

/-! ## Method normalisation (C4) -/

theorem known_methods_valid : ∀ m ∈ httpKnownMethods, isValidMethodToken m = true := by
  intro m hm
  fin_cases hm <;> rfl

/-- C4: the empty method becomes GET; each of the nine known tokens is used
as such; any other syntactically valid token is used verbatim; and
normalisation fails — with the bad-method error — exactly for a non-empty
syntactically invalid token. -/
theorem method_normalisation (m : String) :
    (normalize_method "" = .ok "GET") ∧
    (m ∈ httpKnownMethods → normalize_method m = .ok m) ∧
    (m ≠ "" → isValidMethodToken m = true → normalize_method m = .ok m) ∧
    (m ≠ "" → isValidMethodToken m = false →
      normalize_method m = .error (.badMethod m)) ∧
    ((∃ e, normalize_method m = .error e) ↔ (m ≠ "" ∧ isValidMethodToken m = false)) := by
  have hok : m ∈ httpKnownMethods → normalize_method m = .ok m := by
    intro hm
    fin_cases hm <;> rfl
  have hvalid : m ≠ "" → isValidMethodToken m = true → normalize_method m = .ok m := by
    intro hne hval
    have hne' : (m == "") = false := beq_eq_false_iff_ne.mpr hne
    unfold normalize_method
    simp only [hne', Bool.false_eq_true, if_false]
    cases hc : httpKnownMethods.contains m with
    | true => simp
    | false => simp [hval]
  have hbad : m ≠ "" → isValidMethodToken m = false →
      normalize_method m = .error (.badMethod m) := by
    intro hne hval
    have hne' : (m == "") = false := beq_eq_false_iff_ne.mpr hne
    have hc : httpKnownMethods.contains m = false := by
      cases hc : httpKnownMethods.contains m with
      | false => rfl
      | true =>
        have hmem : m ∈ httpKnownMethods := by
          have := List.contains_iff_exists_mem_beq.mp hc
          obtain ⟨a, ha, hbeq⟩ := this
          rwa [eq_of_beq hbeq]
        rw [known_methods_valid m hmem] at hval
        exact absurd hval (by simp)
    unfold normalize_method
    simp only [hne', Bool.false_eq_true, if_false, hc, hval]
  refine ⟨rfl, hok, hvalid, hbad, ?_, ?_⟩
  · rintro ⟨e, he⟩
    by_cases hne : m = ""
    · subst hne
      rw [show normalize_method "" = Except.ok "GET" from rfl] at he
      exact absurd he (by simp)
    · refine ⟨hne, ?_⟩
      cases hval : isValidMethodToken m with
      | false => rfl
      | true =>
        rw [hvalid hne hval] at he
        exact absurd he (by simp)
  · rintro ⟨hne, hval⟩
    exact ⟨.badMethod m, hbad hne hval⟩

/-- Witness for C4: a custom but syntactically valid token passes through
verbatim, and a token with a space fails with the bad-method error. -/
theorem method_normalisation_witness :
    normalize_method "PURGE" = .ok "PURGE" ∧
    normalize_method "BAD METHOD" = .error (.badMethod "BAD METHOD") :=
  ⟨(method_normalisation "PURGE").2.2.1 (by decide) (by rfl),
   (method_normalisation "BAD METHOD").2.2.2.1 (by decide) (by rfl)⟩

/-! ## Response materialisation (C1, C2) -/

theorem lookup_after_store (st : BodyStore) (stream : WStream)
    (hwf : ∀ p ∈ st.streams, p.1 < st.nextHandle) :
    (store_body_stream st stream).2.lookup (store_body_stream st stream).1 = some stream := by
  unfold store_body_stream BodyStore.lookup
  simp only
  rw [List.find?_append]
  have hf : st.streams.find? (fun p => p.1 == st.nextHandle) = none := by
    rw [List.find?_eq_none]
    intro p hp hcontra
    have hlt := hwf p hp
    have heq : p.1 = st.nextHandle := by simpa using hcontra
    omega
  rw [hf]
  simp

/-- C1: with a body allowed, a known content length of at most 64 KiB makes
the pipeline drain the whole stream into inline bytes, report the observed
byte count as the content length, attach no handle, and leave the store
untouched; an unknown or larger content length instead registers the stream
under the next handle (present in the store afterwards) with no inline
bytes and the original content-length hint. `hwf` is the store invariant
that every registered handle came from an earlier counter value. -/
theorem inline_vs_streamed (st : BodyStore) (status : Nat) (method : String)
    (cl : Option Nat) (stream : WStream)
    (hallow : response_allows_body status method = true)
    (hwf : ∀ p ∈ st.streams, p.1 < st.nextHandle) :
    (∀ len bytes, cl = some len → len ≤ INLINE_BODY_MAX → drainAll stream = .ok bytes →
      materialise_body st status method cl stream =
        (.ok ⟨none, some bytes, some bytes.length⟩, st)) ∧
    ((cl = none ∨ ∃ len, cl = some len ∧ INLINE_BODY_MAX < len) →
      materialise_body st status method cl stream =
        (.ok ⟨some st.nextHandle, none, cl⟩,
          BodyStore.mk (st.streams ++ [(st.nextHandle, stream)]) (st.nextHandle + 1)) ∧
      (BodyStore.mk (st.streams ++ [(st.nextHandle, stream)]) (st.nextHandle + 1)).lookup
        st.nextHandle = some stream) := by
  constructor
  · intro len bytes hcl hlen hdrain
    subst hcl
    have hcond : (Option.map (fun l => decide (l ≤ INLINE_BODY_MAX)) (some len)).getD false =
        true := by simp [hlen]
    unfold materialise_body
    rw [hallow]
    simp [hcond, hdrain, hlen]
  · intro hcase
    have helig : (cl.map (fun len => decide (len ≤ INLINE_BODY_MAX))).getD false = false := by
      rcases hcase with hnone | ⟨len, hsome, hgt⟩
      · subst hnone; rfl
      · subst hsome
        simp only [Option.map_some', Option.getD_some, decide_eq_false_iff_not]
        omega
    have hmain : materialise_body st status method cl stream =
        (.ok ⟨some st.nextHandle, none, cl⟩,
          BodyStore.mk (st.streams ++ [(st.nextHandle, stream)]) (st.nextHandle + 1)) := by
      unfold materialise_body
      rw [hallow]
      simp only [if_true, helig, Bool.false_eq_true, if_false]
      rfl
    exact ⟨hmain, lookup_after_store st stream hwf⟩

/-- Witness for C1: both arms at concrete inputs — an eligible 3-byte body is
inlined with observed length, and an unknown-length body is handed to the
store under the next handle. -/
theorem inline_vs_streamed_witness :
    materialise_body (BodyStore.mk [] 1) 200 "GET" (some 3) [Except.ok [1, 2, 3]] =
      (.ok ⟨none, some [1, 2, 3], some (List.length [1, 2, 3])⟩, BodyStore.mk [] 1) ∧
    materialise_body (BodyStore.mk [] 1) 200 "GET" none [Except.ok [9]] =
      (.ok ⟨some 1, none, none⟩, BodyStore.mk [(1, [Except.ok [9]])] 2) :=
  ⟨(inline_vs_streamed (BodyStore.mk [] 1) 200 "GET" (some 3) [Except.ok [1, 2, 3]]
      (by rfl) (by simp)).1 3 [1, 2, 3] rfl (by decide) rfl,
   ((inline_vs_streamed (BodyStore.mk [] 1) 200 "GET" none [Except.ok [9]]
      (by rfl) (by simp)).2 (Or.inl rfl)).1⟩

theorem allows_iff (status : Nat) (method : String) :
    response_allows_body status method = false ↔
      (eqIgnoreAsciiCase method "HEAD" = true ∨
        status = 101 ∨ status = 204 ∨ status = 205 ∨ status = 304) := by
  unfold response_allows_body
  cases hh : eqIgnoreAsciiCase method "HEAD" with
  | true => simp
  | false =>
    simp only [Bool.false_eq_true, if_false, false_or]
    split
    · rename_i hcond
      simp only [Bool.or_eq_true, beq_iff_eq] at hcond
      exact iff_of_true rfl (by tauto)
    · rename_i hcond
      simp only [Bool.or_eq_true, beq_iff_eq, not_or] at hcond
      exact iff_of_false (by simp) (by tauto)

/-- C2: for every successfully materialised response, inline bytes and body
handle are both absent exactly when the request method is HEAD (compared
ignoring ASCII case, as the source does) or the status is 101, 204, 205 or
304; in every other combination one of the two body forms is attached. -/
theorem body_presence_iff_allows (st : BodyStore) (status : Nat) (method : String)
    (cl : Option Nat) (stream : WStream) (out : BodyOutcome) (st' : BodyStore)
    (hres : materialise_body st status method cl stream = (.ok out, st')) :
    (out.bodyHandle = none ∧ out.bodyBytes = none) ↔
      (eqIgnoreAsciiCase method "HEAD" = true ∨
        status = 101 ∨ status = 204 ∨ status = 205 ∨ status = 304) := by
  rw [← allows_iff]
  unfold materialise_body at hres
  cases ha : response_allows_body status method with
  | false =>
    rw [ha] at hres
    simp only [Bool.false_eq_true, if_false, Prod.mk.injEq, Except.ok.injEq] at hres
    obtain ⟨hout, hst⟩ := hres
    simp [← hout]
  | true =>
    rw [ha] at hres
    simp only [if_true] at hres
    constructor
    · rintro ⟨hbh, hbb⟩
      exfalso
      cases he : (cl.map (fun len => decide (len ≤ INLINE_BODY_MAX))).getD false with
      | true =>
        rw [he] at hres
        simp only [if_true] at hres
        cases hd : drainAll stream with
        | error e => rw [hd] at hres; simp at hres
        | ok bytes =>
          rw [hd] at hres
          simp only [Prod.mk.injEq, Except.ok.injEq] at hres
          obtain ⟨hout, -⟩ := hres
          rw [← hout] at hbb
          simp at hbb
      | false =>
        rw [he] at hres
        simp only [Bool.false_eq_true, if_false, Prod.mk.injEq, Except.ok.injEq] at hres
        obtain ⟨hout, -⟩ := hres
        rw [← hout] at hbh
        simp at hbh
    · intro hfalse
      exact absurd hfalse (by simp)

/-- Witness for C2 at a bodiless combination: a 204 response attaches neither
inline bytes nor a handle. -/
theorem body_presence_iff_allows_witness :
    ((none : Option Nat) = none ∧ (none : Option Bytes) = none) ↔
      (eqIgnoreAsciiCase "GET" "HEAD" = true ∨
        204 = 101 ∨ 204 = 204 ∨ 204 = 205 ∨ 204 = 304) :=
  body_presence_iff_allows (BodyStore.mk [] 1) 204 "GET" (some 3) [] ⟨none, none, some 3⟩
    (BodyStore.mk [] 1) rfl

/-! ## Request cancellation (C5) -/

/-- C5: in every reachable state of one cancellable request, (a) a settled
promise implies the token has left `REQUEST_CANCELLATIONS` — both completion
paths remove it before settling; (b) the promise settles as aborted only
after a `cancelRequest` call cancelled the token; (c) once `cancelRequest`
has returned and the promise is still pending, the abort settlement is an
enabled step — the request either completed or will reject with the
request-aborted error; and (d) a settled state takes no further step, so
the settlement is final. -/
theorem cancellation_protocol (s : ReqState) (hreach : ReqReachable s) :
    (∀ o, s.settled = some o → s.tokenInRegistry = false) ∧
    (s.settled = some .aborted → s.tokenCancelled = true) ∧
    (s.tokenCancelled = true → s.settled = none →
      ReqStep s ⟨false, true, s.sendReady, some .aborted⟩) ∧
    (∀ o, s.settled = some o → ∀ t, ¬ ReqStep s t) := by
  have hinv : (∀ o, s.settled = some o → s.tokenInRegistry = false) ∧
      (s.settled = some .aborted → s.tokenCancelled = true) := by
    induction hreach with
    | init => exact ⟨fun o ho => by simp [initReqState] at ho, fun ho => by
        simp [initReqState] at ho⟩
    | step hr hstep ih =>
      cases hstep with
      | sendCompletes h1 h2 =>
        exact ⟨fun o ho => by simp [h2] at ho, fun ho => by simp [h2] at ho⟩
      | settleSend h1 h2 =>
        exact ⟨fun o ho => rfl, fun ho => by simp at ho⟩
      | settleCancel h1 h2 =>
        exact ⟨fun o ho => rfl, fun ho => h1⟩
      | cancelCall h1 =>
        exact ⟨fun o ho => rfl, fun ho => rfl⟩
  refine ⟨hinv.1, hinv.2, ?_, ?_⟩
  · intro hcanc hnone
    have := ReqStep.settleCancel s hcanc hnone
    cases s with
    | mk r c sr se =>
      simp only at hcanc hnone
      subst hcanc hnone
      exact this
  · intro o ho t hstep
    cases hstep with
    | sendCompletes h1 h2 => rw [ho] at h2; exact Option.noConfusion h2
    | settleSend h1 h2 => rw [ho] at h2; exact Option.noConfusion h2
    | settleCancel h1 h2 => rw [ho] at h2; exact Option.noConfusion h2
    | cancelCall h1 =>
      have hfalse := hinv.1 o ho
      rw [h1] at hfalse
      exact Bool.noConfusion hfalse

/-- Witness for C5 at the state reached by cancelling the fresh request: the
abort settlement step is enabled there. -/
theorem cancellation_protocol_witness :
    ReqStep ⟨false, true, false, none⟩ ⟨false, true, false, some .aborted⟩ :=
  (cancellation_protocol ⟨false, true, false, none⟩
      (ReqReachable.step ReqReachable.init (ReqStep.cancelCall initReqState rfl))).2.2.1
    rfl rfl

/-! ## WebSocket upgrade header casing (C7) -/

theorem update_keys (m : List (String × String)) (k v : String) :
    (m.map (fun p => if p.1 == k then (p.1, v) else p)).map Prod.fst = m.map Prod.fst := by
  rw [List.map_map]
  apply List.map_congr_left
  intro p hp
  by_cases h : p.1 = k <;> simp [h]

theorem update_any (m : List (String × String)) (k v k' : String) :
    (m.map (fun p => if p.1 == k then (p.1, v) else p)).any (fun p => p.1 == k') =
      m.any (fun p => p.1 == k') := by
  rw [List.any_map]
  congr 1
  funext p
  by_cases h : p.1 = k <;> simp [h]

theorem find?_lower_eq_none (rest : List String) (k : String)
    (hnot : k ∉ rest.map strLower) :
    rest.find? (fun u => strLower u == k) = none := by
  rw [List.find?_eq_none]
  intro x hx hcontra
  exact hnot (List.mem_map.mpr ⟨x, hx, by simpa using hcontra⟩)

/-- Characterisation of a run of `origInsert` insertions over a map with
distinct keys, for names with pairwise-distinct lowercase forms: a name
matching an existing key overrides that entry's casing in place, the rest
are appended in order. -/
theorem foldl_origInsert_names (us : List String) (m : List (String × String))
    (hm : (m.map Prod.fst).Nodup) (hus : (us.map strLower).Nodup) :
    (us.foldl origInsert m).map Prod.snd =
      m.map (fun p =>
        match us.find? (fun u => strLower u == p.1) with
        | some u => u
        | none => p.2) ++
      us.filter (fun u => !(m.any (fun p => p.1 == strLower u))) := by
  induction us generalizing m with
  | nil => simp
  | cons u rest ih =>
    have hrest : (rest.map strLower).Nodup := by
      simp only [List.map_cons, List.nodup_cons] at hus
      exact hus.2
    have hunotin : strLower u ∉ rest.map strLower := by
      simp only [List.map_cons, List.nodup_cons] at hus
      exact hus.1
    rw [List.foldl_cons]
    cases hany : m.any (fun p => p.1 == strLower u) with
    | true =>
      have hins : origInsert m u =
          m.map (fun p => if p.1 == strLower u then (p.1, u) else p) := by
        unfold origInsert registryInsert
        rw [hany]
        simp
      rw [hins]
      have hm' : ((m.map (fun p => if p.1 == strLower u then (p.1, u) else p)).map
          Prod.fst).Nodup := by
        rw [update_keys]; exact hm
      rw [ih _ hm' hrest]
      congr 1
      · rw [List.map_map]
        apply List.map_congr_left
        intro p hp
        by_cases hk : p.1 = strLower u
        · simp [Function.comp, hk, find?_lower_eq_none rest (strLower u) hunotin]
        · have hk2 : ¬(strLower u = p.1) := fun h => hk h.symm
          simp [Function.comp, hk, hk2]
      · rw [show ((u :: rest).filter (fun u' => !(m.any (fun p => p.1 == strLower u')))) =
            rest.filter (fun u' => !(m.any (fun p => p.1 == strLower u'))) from by
          rw [List.filter_cons]; simp [hany]]
        apply List.filter_congr
        intro x hx
        rw [update_any]
    | false =>
      have hins : origInsert m u = m ++ [(strLower u, u)] := by
        unfold origInsert registryInsert
        rw [hany]
        simp
      rw [hins]
      have hnotkey : ∀ p ∈ m, p.1 ≠ strLower u := by
        intro p hp hcontra
        have hcontra2 : m.any (fun p => p.1 == strLower u) = true :=
          List.any_eq_true.mpr ⟨p, hp, by simpa using hcontra⟩
        rw [hany] at hcontra2
        exact Bool.noConfusion hcontra2
      have hm' : ((m ++ [(strLower u, u)]).map Prod.fst).Nodup := by
        rw [List.map_append, List.nodup_append]
        refine ⟨hm, List.nodup_singleton _, ?_⟩
        intro x hx hx2
        simp only [List.map_cons, List.map_nil, List.mem_singleton] at hx2
        obtain ⟨p, hp, hpx⟩ := List.mem_map.mp hx
        exact hnotkey p hp (by rw [hpx, hx2])
      rw [ih _ hm' hrest]
      rw [List.map_append]
      have hsing : (([(strLower u, u)] : List (String × String)).map (fun p =>
          match rest.find? (fun u' => strLower u' == p.1) with
          | some u' => u'
          | none => p.2)) = [u] := by
        simp [find?_lower_eq_none rest (strLower u) hunotin]
      rw [hsing]
      rw [show ((u :: rest).filter (fun u' => !(m.any (fun p => p.1 == strLower u')))) =
          u :: rest.filter (fun u' => !(m.any (fun p => p.1 == strLower u'))) from by
        rw [List.filter_cons]; simp [hany]]
      rw [List.append_assoc]
      congr 1
      · apply List.map_congr_left
        intro p hp
        have hne2 : ¬(strLower u = p.1) := fun h => hnotkey p hp h.symm
        simp [hne2]
      · rw [List.singleton_append]
        congr 1
        apply List.filter_congr
        intro x hx
        rw [List.any_append]
        have hxne : ¬(strLower u = strLower x) := by
          intro hcontra
          exact hunotin (by rw [hcontra]; exact List.mem_map.mpr ⟨x, hx, rfl⟩)
        simp [hxne]

/-- C7: for any list of user-supplied upgrade headers with pairwise-distinct
(lower-cased) names, the original-casing map handed to the client holds
exactly the nineteen standard names, Title-Case and in the fixed order —
except that a user-supplied name matching one of them overrides its
casing — followed by the remaining user-supplied names in their original
casing and order. -/
theorem ws_orig_header_names (userHeaders : List (String × String))
    (hnodup : (userHeaders.map (fun kv => strLower kv.1)).Nodup) :
    (build_ws_orig_headers userHeaders).map Prod.snd = claimedOrigHeaderNames userHeaders := by
  unfold build_ws_orig_headers claimedOrigHeaderNames
  have hfold : userHeaders.foldl (fun m kv => origInsert m kv.1) (wsStandardHeaders.foldl origInsert []) =
      (userHeaders.map Prod.fst).foldl origInsert (wsStandardHeaders.foldl origInsert []) := by
    rw [List.foldl_map]
  rw [hfold]
  have hstd : wsStandardHeaders.foldl origInsert [] =
      wsStandardHeaders.map (fun s => (strLower s, s)) := by rfl
  rw [hstd]
  have hkeys : ((wsStandardHeaders.map (fun s => (strLower s, s))).map Prod.fst).Nodup := by
    rw [List.map_map]
    decide
  have hus : (((userHeaders.map Prod.fst).map strLower)).Nodup := by
    rw [List.map_map]
    exact hnodup
  rw [foldl_origInsert_names _ _ hkeys hus]
  congr 1
  · rw [List.map_map]
    apply List.map_congr_left
    intro s hs
    rw [Function.comp_apply, List.find?_map]
    cases hf : userHeaders.find? (fun kv => strLower kv.1 == strLower s) with
    | none =>
      rw [show userHeaders.find? ((fun u => strLower u == strLower s) ∘ Prod.fst) =
          userHeaders.find? (fun kv => strLower kv.1 == strLower s) from rfl, hf]
      simp
    | some kv =>
      rw [show userHeaders.find? ((fun u => strLower u == strLower s) ∘ Prod.fst) =
          userHeaders.find? (fun kv => strLower kv.1 == strLower s) from rfl, hf]
      simp

/-- Witness for C7 at a concrete header list: one name overriding the
standard `Cookie` casing and one extra custom name appended at the end. -/
theorem ws_orig_header_names_witness :
    (build_ws_orig_headers [("X-Api-Key", "k"), ("COOKIE", "a=b")]).map Prod.snd =
      claimedOrigHeaderNames [("X-Api-Key", "k"), ("COOKIE", "a=b")] :=
  ws_orig_header_names [("X-Api-Key", "k"), ("COOKIE", "a=b")] (by decide)

end WreqJs
